import Mathlib

/-!
Verification development for the little-parser-lib combinator library.

The definitions below are a shallow embedding of the TypeScript sources:
`src/tokenizer/Tokenizer.ts`, `src/tokenizer/TokenStream.ts`,
`src/parsers/parsers.ts`, `src/parsers/combinators.ts`,
`src/parsers/runners.ts` and `src/parsers/ParserError.ts`.
Mutable state (the token stream's cursor and backtrack stack) becomes
explicit state passing; a thrown JavaScript exception becomes a dedicated
result variant that every combinator propagates exactly where the
exception would propagate in the original code.
-/

namespace LittleParser

/-- `TokenPosition` from `src/tokenizer/types.ts`: a 1-based line/column pair. -/
structure TokenPosition where
  line : Nat
  column : Nat
deriving DecidableEq, Repr

/-- `Token` from `src/tokenizer/types.ts`. The `type` field is an open
string tag (`TokenType`). -/
structure Token where
  value : String
  type : String
  position : TokenPosition
deriving DecidableEq, Repr

/-- `ParserErrorPosition` from `src/parsers/ParserError.ts`: line, column and
the absolute index into the token stream. -/
structure ParserErrorPosition where
  line : Nat
  column : Nat
  position : Nat
deriving DecidableEq, Repr

/-- `TokenStream` from `src/tokenizer/TokenStream.ts`. The JavaScript object
holds a token array, a numeric cursor `position` and a `positionStack`
array used as a LIFO stack (`push` / `pop`). The stack is modelled with
the most recently pushed entry at the head of the list. -/
structure TokenStream where
  tokens : List Token
  position : Nat
  positionStack : List Nat
deriving DecidableEq, Repr

/-- The `TokenStream` constructor: cursor `0`, empty backtrack stack. -/
def TokenStream.make (tokens : List Token) : TokenStream :=
  { tokens := tokens, position := 0, positionStack := [] }

/-- `TokenStream.peek`: `this.tokens[this.position] || null`. -/
def TokenStream.peek (s : TokenStream) : Option Token :=
  s.tokens[s.position]?

/-- `TokenStream.consume`: `this.tokens[this.position++] || null`.
The post-increment always advances the cursor, even when the lookup is
out of range and `null` is returned. -/
def TokenStream.consume (s : TokenStream) : Option Token × TokenStream :=
  (s.tokens[s.position]?, { s with position := s.position + 1 })

/-- `TokenStream.consumeIf`: peek, and consume only on a type match. -/
def TokenStream.consumeIf (types : List String) (s : TokenStream) :
    Option Token × TokenStream :=
  match s.peek with
  | some token => if types.contains token.type then s.consume else (none, s)
  | none => (none, s)

/-- `TokenStream.storePosition`: `this.positionStack.push(this.position)`. -/
def TokenStream.storePosition (s : TokenStream) : TokenStream :=
  { s with positionStack := s.position :: s.positionStack }

/-- `TokenStream.clearPosition`: `this.positionStack.pop()` with the popped
value discarded; popping an empty stack is a no-op. -/
def TokenStream.clearPosition (s : TokenStream) : TokenStream :=
  { s with positionStack := s.positionStack.tail }

/-- `TokenStream.restorePosition`: pop the stack and, when a value was
present, reset the cursor to it. -/
def TokenStream.restorePosition (s : TokenStream) : TokenStream :=
  match s.positionStack with
  | [] => s
  | pos :: rest => { s with position := pos, positionStack := rest }

/-- `TokenStream.getPositionForError`:
`const tokenToUse = this.peek() || this.tokens[this.tokens.length - 1]`
followed by reading `tokenToUse.position`. With an empty token array both
lookups are `undefined` and the property read throws a `TypeError`; that
crash is modelled by `none`. -/
def TokenStream.getPositionForError (s : TokenStream) :
    Option ParserErrorPosition :=
  match s.peek with
  | some tokenToUse =>
      some { line := tokenToUse.position.line,
             column := tokenToUse.position.column,
             position := s.position }
  | none =>
      match s.tokens.getLast? with
      | some tokenToUse =>
          some { line := tokenToUse.position.line,
                 column := tokenToUse.position.column,
                 position := s.position }
      | none => none

/-! ## Tokenizer (`src/tokenizer/Tokenizer.ts`) -/

/-- A matcher rule is either an exact string literal or a regular-expression
test; the library only ever tests one character at a time, so a regular
expression is embedded as a character predicate. -/
inductive Matcher where
  | strLit (s : String)
  | regex (test : Char → Bool)

/-- `typeof matcher === 'string' && char === matcher`: the single-character
string built from `char` equals the literal. -/
def Matcher.isStringMatch : Matcher → Char → Bool
  | .strLit s, char => s = String.singleton char
  | .regex _, _ => false

/-- `matcher instanceof RegExp && matcher.test(char)`. -/
def Matcher.isRegexMatch : Matcher → Char → Bool
  | .strLit _, _ => false
  | .regex test, char => test char

/-- `/[a-zA-Z]/` applied to a single character. -/
def LetterRegex : Char → Bool := fun c =>
  (('a' ≤ c) && (c ≤ 'z')) || (('A' ≤ c) && (c ≤ 'Z'))

/-- `/[0-9]/` applied to a single character. -/
def DigitRegex : Char → Bool := fun c => ('0' ≤ c) && (c ≤ '9')

/-- The `Tokenizer` class state: the insertion-ordered rule map and the
designated newline token type. `tokenize` never reads
`newLineTokenType`; the field is kept to mirror the class. -/
structure Tokenizer where
  tokenTypeMatchers : List (Matcher × String)
  newLineTokenType : Option String := none

/-- The body of the `for (const [matcher, type] of this.tokenTypeMatchers)`
loop inside `tokenize`. Each iteration either pushes a token and breaks,
or reaches the unconditional `throw` at the end of the loop body — so the
tail of the rule list is never examined, and an empty rule list skips the
character without pushing anything. -/
def tokenizeRuleLoop (matchers : List (Matcher × String)) (char : Char)
    (position : TokenPosition) : Except String (Option Token) :=
  match matchers with
  | [] => .ok none
  | (matcher, type) :: _ =>
      if matcher.isStringMatch char then
        .ok (some { type := type, value := String.singleton char,
                    position := position })
      else if matcher.isRegexMatch char then
        .ok (some { type := type, value := String.singleton char,
                    position := position })
      else
        .error ("No token type matched for character: " ++
          String.singleton char)

/-- The `input.split('').reduce(...)` walk of `tokenize`: for each
character the shared `position` object first gets `position.column += 1`,
then the rule loop runs. The `line` field is never touched. -/
def tokenizeGo (t : Tokenizer) :
    List Char → TokenPosition → List Token → Except String (List Token)
  | [], _, tokens => .ok tokens
  | char :: rest, position, tokens =>
      let position := { position with column := position.column + 1 }
      match tokenizeRuleLoop t.tokenTypeMatchers char position with
      | .error e => .error e
      | .ok none => tokenizeGo t rest position tokens
      | .ok (some token) => tokenizeGo t rest position (tokens ++ [token])

/-- `Tokenizer.tokenize`, starting from `{ line: 1, column: 1 }`. A thrown
`Error` is modelled as `Except.error` carrying the message. -/
def Tokenizer.tokenize (t : Tokenizer) (input : String) :
    Except String (List Token) :=
  tokenizeGo t input.toList { line := 1, column := 1 } []

/-! ## Parse results (`src/parsers/types.ts`)

`ParserResult<T>` is the union of `SuccessfulParserResult<T>` (a `result`
field) and `FailedParserResult` (`errorMessage` and `position` fields);
the code discriminates by duck typing. Two further variants model
untyped runtime values that escape the declared union: `thrown` is a
JavaScript exception in flight (it propagates through every combinator
exactly where the exception would), and `jsNull` is the bare `null`
returned by `or` when it was given no alternatives. -/

inductive ParserResult (T : Type) where
  | success (result : T)
  | failure (errorMessage : String) (position : ParserErrorPosition)
  | thrown (message : String)
  | jsNull
deriving DecidableEq, Repr

/-- `ParseFn<T> = (tokenStream: TokenStream) => ParserResult<T>`, with the
stream's mutation made explicit in the return value. -/
abbrev ParseFn (T : Type) := TokenStream → ParserResult T × TokenStream

/-- The `TypeError` raised when `getPositionForError` dereferences
`undefined` (empty token array). -/
def typeErrorUndefined : String :=
  "TypeError: Cannot read properties of undefined"

/-- The `TypeError` raised when `isSuccessfulResult` / `isFailedResult`
read a field of the `null` that `or` returns for an empty alternative
list. -/
def typeErrorNull : String :=
  "TypeError: Cannot read properties of null"

/-- Build the failure object `{ errorMessage, position:
tokenStream.getPositionForError() }`; when `getPositionForError` crashes
the `TypeError` propagates instead. -/
def mkFailureAt {T : Type} (errorMessage : String) (s : TokenStream) :
    ParserResult T × TokenStream :=
  match s.getPositionForError with
  | some position => (.failure errorMessage position, s)
  | none => (.thrown typeErrorUndefined, s)

/-- `token?.type || 'end of input'` (JavaScript `||`, so an empty-string
type also falls back). -/
def typeOrEndOfInput (token : Option Token) : String :=
  match token with
  | some t => if t.type = "" then "end of input" else t.type
  | none => "end of input"

/-! ## Primitive matchers (`src/parsers/parsers.ts`) -/

/-- `anyOf(...types)`: unconditionally `consume()`, then fail unless a
token of one of the wanted types was returned. The failed branch mirrors
`if (!token || !types.includes(token.type))`. -/
def anyOf (types : List String) : ParseFn Token := fun tokenStream =>
  match tokenStream.consume with
  | (none, s1) =>
      mkFailureAt ("Expected token of type " ++ String.intercalate ", " types
        ++ ", but got " ++ typeOrEndOfInput none) s1
  | (some token, s1) =>
      if types.contains token.type then (.success token, s1)
      else
        mkFailureAt ("Expected token of type " ++ String.intercalate ", " types
          ++ ", but got " ++ typeOrEndOfInput (some token)) s1

/-- `endOfInput()`: `consume()` and fail only on a leftover token whose
type is not the reserved marker; the success value is `null`. -/
def endOfInput : ParseFn Unit := fun tokenStream =>
  match tokenStream.consume with
  | (some token, s1) =>
      if token.type ≠ "end_of_input" then
        mkFailureAt ("Expected end of input, but got token of type " ++
          token.type) s1
      else (.success (), s1)
  | (none, s1) => (.success (), s1)

/-! ## Combinators (`src/parsers/combinators.ts`) -/

/-- `attempt(parser)`: store the position, run the parser, clear on
success and restore on failure. A thrown exception propagates before
either pop can run, leaving the pushed position on the stack; the
`isSuccessfulResult(null)` duck-type check on a `jsNull` value itself
throws a `TypeError`. -/
def attempt {T : Type} (parser : ParseFn T) : ParseFn T := fun tokenStream =>
  let s1 := tokenStream.storePosition
  match parser s1 with
  | (.success v, s2) => (.success v, s2.clearPosition)
  | (.failure m p, s2) => (.failure m p, s2.restorePosition)
  | (.thrown m, s2) => (.thrown m, s2)
  | (.jsNull, s2) => (.thrown typeErrorNull, s2)

/-- `optional(parser, shouldBacktrack = true)`: run the (possibly
`attempt`-wrapped) parser, pass a success through, and turn a failure
into `{ result: null }` — modelled as `success none`. -/
def optional {T : Type} (parser : ParseFn T)
    (shouldBacktrack : Bool := true) : ParseFn (Option T) := fun tokenStream =>
  let parseFn := if shouldBacktrack then attempt parser else parser
  match parseFn tokenStream with
  | (.success v, s1) => (.success (some v), s1)
  | (.failure _ _, s1) => (.success none, s1)
  | (.thrown m, s1) => (.thrown m, s1)
  | (.jsNull, s1) => (.thrown typeErrorNull, s1)

/-- The loop of `or(...parsers)` with its two mutable locals
`deepestError` (initially `null`) and `deepestErrorPosition` (initially
`-1`) as parameters. After the loop the code executes
`return deepestError as FailedParserResult`, which yields the raw `null`
when no alternative ever failed — i.e. when the list was empty. The
`jsNull` case is unreachable because `attempt` never returns it. -/
def orGo {T : Type} :
    List (ParseFn T) → Option (String × ParserErrorPosition) → Int →
      TokenStream → ParserResult T × TokenStream
  | [], deepestError, _, s =>
      match deepestError with
      | some (m, p) => (.failure m p, s)
      | none => (.jsNull, s)
  | parser :: rest, deepestError, deepestErrorPosition, s =>
      match attempt parser s with
      | (.success v, s1) => (.success v, s1)
      | (.failure m p, s1) =>
          if (p.position : Int) > deepestErrorPosition then
            orGo rest (some (m, p)) (p.position : Int) s1
          else
            orGo rest deepestError deepestErrorPosition s1
      | (.thrown m, s1) => (.thrown m, s1)
      | (.jsNull, s1) => (.thrown typeErrorNull, s1)

/-- `or(...parsers)`. -/
def orP {T : Type} (parsers : List (ParseFn T)) : ParseFn T := fun s =>
  orGo parsers none (-1) s

/-- The `while (true)` loop of `many(parser)`, indexed by fuel so that a
non-terminating loop is expressible: `none` means the loop is still
running after `fuel` iterations. Each loop exit inlines the post-loop
`if (parseFailure && results.length === 0) return parseFailure;
return { result: results };` — `parseFailure` is non-null exactly when
the exit came through the failure branch. -/
def manyGo {T : Type} (parser : ParseFn T) :
    Nat → List T → TokenStream → Option (ParserResult (List T) × TokenStream)
  | 0, _, _ => none
  | fuel + 1, results, tokenStream =>
      let positionBefore := tokenStream.position
      let s1 := tokenStream.storePosition
      match parser s1 with
      | (.success v, s2) =>
          if s2.position = positionBefore then
            -- zero-width success: restore and break with parseFailure null
            some (.success results, s2.restorePosition)
          else
            manyGo parser fuel (results ++ [v]) s2.clearPosition
      | (.failure m p, s2) =>
          -- parseFailure := the failure; restore and break
          some (if results.isEmpty then .failure m p else .success results,
            s2.restorePosition)
      | (.thrown m, s2) => some (.thrown m, s2)
      | (.jsNull, s2) => some (.thrown typeErrorNull, s2)

/-- `many(parser)` terminates with outcome `out` when some finite number
of loop iterations suffices. -/
def ManyResult {T : Type} (parser : ParseFn T) (s : TokenStream)
    (out : ParserResult (List T) × TokenStream) : Prop :=
  ∃ fuel, manyGo parser fuel [] s = some out

/-! ## Runner (`src/parsers/runners.ts`, `src/parsers/ParserError.ts`) -/

/-- The `ParserError` class: the `Error.message` is the formatted
`Parser Error [line:column]: message` string and `location` keeps the
raw position. -/
structure ParserError where
  message : String
  location : ParserErrorPosition
deriving DecidableEq, Repr

/-- The `ParserError` constructor. -/
def ParserError.make (message : String) (location : ParserErrorPosition) :
    ParserError :=
  { message := "Parser Error [" ++ toString location.line ++ ":" ++
      toString location.column ++ "]: " ++ message,
    location := location }

/-- What a call to `runParser` can do. `returned` is a normal return of
the `ParserResult` object the parser produced; `returnedValue` is the
spec-described alternative of returning the bare parsed value (stated
here only so the two can be compared — the code never does it);
`raised` is a thrown `ParserError`; `exception` is any other
JavaScript exception propagating through. -/
inductive RunOutcome (T : Type) where
  | returned (r : ParserResult T)
  | returnedValue (v : T)
  | raised (e : ParserError)
  | exception (message : String)
deriving DecidableEq, Repr

/-- `runParser(parser, tokenStream)`: run once; `throw new ParserError`
on a failed result; otherwise return the result object itself. The
`isFailedResult(null)` check on the `jsNull` value throws a
`TypeError`. -/
def runParser {T : Type} (parser : ParseFn T) (tokenStream : TokenStream) :
    RunOutcome T × TokenStream :=
  match parser tokenStream with
  | (.failure m p, s1) => (.raised (ParserError.make m p), s1)
  | (.success v, s1) => (.returned (.success v), s1)
  | (.thrown m, s1) => (.exception m, s1)
  | (.jsNull, s1) => (.exception typeErrorNull, s1)

/-! ## Concrete fixtures used by the claim theorems -/

/-- `new Tokenizer().withTokenType(/[a-zA-Z]/, 'letter').withTokenType(/[0-9]/, 'digit')`. -/
def letterDigitTokenizer : Tokenizer :=
  { tokenTypeMatchers := [(.regex LetterRegex, "letter"),
                          (.regex DigitRegex, "digit")] }

/-- A tokenizer whose only rule is the designated newline rule. -/
def newlineTokenizer : Tokenizer :=
  { tokenTypeMatchers := [(.regex (fun c => c == Char.ofNat 10), "newline")],
    newLineTokenType := some "newline" }

/-- A token of type `z` at line 1, column 1. -/
def zToken : Token :=
  { value := "z", type := "z", position := { line := 1, column := 1 } }

/-- A one-token stream holding `zToken`. -/
def zStream : TokenStream := TokenStream.make [zToken]

/-- A stream over an empty token array. -/
def emptyStream : TokenStream := TokenStream.make []

/-- The operations a caller can perform on a `TokenStream` (claim C4).
`peek` returns a value without changing the stream. -/
inductive StreamOp where
  | peekOp
  | consumeOp
  | consumeIfOp (types : List String)
  | storeOp
  | clearOp
  | restoreOp
deriving DecidableEq

/-- State effect of one `TokenStream` operation. -/
def applyOp : StreamOp → TokenStream → TokenStream
  | .peekOp, s => s
  | .consumeOp, s => (s.consume).2
  | .consumeIfOp types, s => (s.consumeIf types).2
  | .storeOp, s => s.storePosition
  | .clearOp, s => s.clearPosition
  | .restoreOp, s => s.restorePosition

/-- The cursor and every saved position are within the token count. -/
def StreamWF (s : TokenStream) : Prop :=
  s.position ≤ s.tokens.length ∧
    ∀ p ∈ s.positionStack, p ≤ s.tokens.length

/-! ## Claim theorems -/

/-- Claim C1 (code bug): with rules `letter=/[a-zA-Z]/` then
`digit=/[0-9]/`, `tokenize("ab12")` does not produce four tokens — the
`throw` sits inside the rule `for`-loop, so at the character `1` the
first (non-matching) `letter` rule aborts tokenization before the
`digit` rule is ever tried. -/
theorem c1_tokenize_aborts_at_first_nonmatching_rule :
    letterDigitTokenizer.tokenize "ab12" =
      .error "No token type matched for character: 1" := by
  rfl

/-- Claim C5 (code bug): `tokenize` increments `column` before pushing a
character's token, so the first character of the input gets column 2 and
the k-th character column k+1; and `newLineTokenType` is never consulted,
so the line number stays 1 even when every character matches the
designated newline rule. -/
theorem c5_tokenize_column_and_line :
    newlineTokenizer.tokenize "\n\n" =
      .ok [{ value := "\n", type := "newline",
             position := { line := 1, column := 2 } },
           { value := "\n", type := "newline",
             position := { line := 1, column := 3 } }] := by
  rfl

/-- Claim C8 (code bug): `many(anyOf('digit'))` on a stream over an empty
token array does not return a `Failure` — building the failure calls
`getPositionForError`, whose fallback `this.tokens[this.tokens.length - 1]`
is `undefined` for zero tokens, so reading `.position` throws a
`TypeError` that propagates out of `many`. -/
theorem c8_many_anyOf_crashes_on_empty_input :
    manyGo (anyOf ["digit"]) 1 [] emptyStream =
      some (.thrown typeErrorUndefined,
        { tokens := [], position := 1, positionStack := [0] }) := by
  rfl

/-- Claim C10: `or` with an empty alternative list returns the raw `null`
(`deepestError` was never assigned) for every cursor — a value that is
neither the `Success` nor the `Failure` variant of the result union. -/
theorem c10_or_empty_returns_null :
    ∀ s : TokenStream,
      orP ([] : List (ParseFn Token)) s = (.jsNull, s) ∧
        (∀ v : Token, (ParserResult.jsNull : ParserResult Token) ≠ .success v) ∧
        (∀ (m : String) (p : ParserErrorPosition),
          (ParserResult.jsNull : ParserResult Token) ≠ .failure m p) := by
  intro s
  refine ⟨rfl, ?_, ?_⟩
  · intro v h
    exact ParserResult.noConfusion h
  · intro m p h
    exact ParserResult.noConfusion h

/-- Claim C2 counterexample: `anyOf('a')` at a token of type `z` returns
`Failure` but does not leave the cursor unchanged — `consume()` advanced
it from 0 to 1 before the type test. -/
theorem c2_counterexample :
    anyOf ["a"] zStream =
      (.failure "Expected token of type a, but got z"
        { line := 1, column := 1, position := 1 },
       { zStream with position := 1 }) ∧
    zStream.position = 0 := by
  exact ⟨rfl, rfl⟩

/-- Claim C4 counterexample: `consume()` applied to a stream at end of
input (here: an empty token sequence) increments the cursor to 1, past
`len(tokens) = 0`, violating the claimed `cursor ≤ len(tokens)` bound. -/
theorem c4_counterexample :
    ¬ ((applyOp StreamOp.consumeOp emptyStream).position ≤
        (applyOp StreamOp.consumeOp emptyStream).tokens.length) := by
  decide

/-- A non-empty token array always yields an error position; the
`TypeError` of `getPositionForError` needs zero tokens. -/
theorem getPositionForError_isSome (s : TokenStream) (h : s.tokens ≠ []) :
    ∃ p, s.getPositionForError = some p := by
  unfold TokenStream.getPositionForError
  cases hpk : s.peek with
  | some t => exact ⟨_, rfl⟩
  | none =>
      cases hgl : s.tokens.getLast? with
      | some t => exact ⟨_, rfl⟩
      | none => exact absurd (List.getLast?_eq_none_iff.mp hgl) h

/-- Claim C2 (amended): at a token of a wanted type, `anyOf` succeeds with
that token and advances the cursor by exactly 1; at a token of any other
type it returns `Failure` but the cursor still advances by exactly 1,
because `consume()` increments unconditionally before the type test. -/
theorem c2_anyOf_cursor_behavior (types : List String) (s : TokenStream)
    (t : Token) (h : s.peek = some t) :
    (types.contains t.type = true →
      anyOf types s = (.success t, { s with position := s.position + 1 })) ∧
    (types.contains t.type = false →
      ∃ m p, anyOf types s =
        (.failure m p, { s with position := s.position + 1 })) := by
  have hconsume : s.consume = (some t, { s with position := s.position + 1 }) := by
    simp only [TokenStream.consume]
    rw [show s.tokens[s.position]? = some t from h]
  constructor
  · intro hc
    simp only [anyOf, hconsume, hc, if_true]
  · intro hc
    have hne : s.tokens ≠ [] := by
      intro hnil
      rw [TokenStream.peek, hnil] at h
      simp at h
    obtain ⟨p, hp⟩ := getPositionForError_isSome
      { s with position := s.position + 1 } hne
    simp only [anyOf, hconsume, hc, Bool.false_eq_true, if_false,
      mkFailureAt, hp]
    exact ⟨_, _, rfl⟩

/-- Witness for C2: both branches of `c2_anyOf_cursor_behavior` at the
concrete one-token stream `zStream`. -/
theorem c2_witness :
    anyOf ["z"] zStream = (.success zToken, { zStream with position := 1 }) ∧
    (∃ m p, anyOf ["a"] zStream =
      (.failure m p, { zStream with position := 1 })) := by
  constructor
  · exact (c2_anyOf_cursor_behavior ["z"] zStream zToken rfl).1 rfl
  · exact (c2_anyOf_cursor_behavior ["a"] zStream zToken rfl).2 rfl

/-- Claim C3 counterexample: `many(optional(anyOf('x')))` on a one-token
stream of type `z` accumulates zero results (the optional parser
succeeds zero-width on its first application), yet `many` returns
`Success([])`, not a failure — `parseFailure` is still `null` at the
break. -/
theorem c3_counterexample :
    manyGo (optional (anyOf ["x"]) true) 1 [] zStream =
      some (.success [], zStream) := by
  rfl

/-- Claim C3 (amended): when `many` exits its loop through the failure
branch with zero accumulated results it returns that failure; but when
the first application of the parser succeeds without advancing the
cursor, `many` returns `Success([])` — an empty-list success — because
no failure was ever recorded. -/
theorem c3_many_zero_results {T : Type} (p : ParseFn T) (s : TokenStream)
    (fuel : Nat) :
    (∀ m pos s2, p s.storePosition = (.failure m pos, s2) →
      manyGo p (fuel + 1) [] s = some (.failure m pos, s2.restorePosition)) ∧
    (∀ v s2, p s.storePosition = (.success v, s2) → s2.position = s.position →
      manyGo p (fuel + 1) [] s = some (.success [], s2.restorePosition)) := by
  constructor
  · intro m pos s2 h
    simp only [manyGo, h, List.isEmpty_nil, if_true]
  · intro v s2 h hpos
    simp only [manyGo, h, hpos, if_true]

/-- Witness for C3: both branches of `c3_many_zero_results` at concrete
inputs — a failing first application returns its failure, and a
zero-width first success returns `Success([])`. -/
theorem c3_witness :
    manyGo (anyOf ["digit"]) 1 [] zStream =
      some (.failure "Expected token of type digit, but got z"
        { line := 1, column := 1, position := 1 }, zStream) ∧
    manyGo (optional (anyOf ["q"]) true) 1 [] zStream =
      some (.success [], zStream) := by
  constructor
  · exact (c3_many_zero_results (anyOf ["digit"]) zStream 0).1 _ _
      { tokens := [zToken], position := 1, positionStack := [0] } rfl
  · exact (c3_many_zero_results (optional (anyOf ["q"]) true) zStream 0).2 none
      { tokens := [zToken], position := 0, positionStack := [0] } rfl rfl

/-- Claim C4 (amended): the lower bound `0 ≤ cursor` is inherent, and
`cursor ≤ len(tokens)` (together with every stored position being in
bounds) is preserved by `peek`, `consumeIf`, `storePosition`,
`clearPosition` and `restorePosition`, and by `consume` only below end of
input; `consume` exactly at end of input increments the cursor to
`len(tokens) + 1`, breaking the claimed upper bound. -/
theorem c4_cursor_bounds (s : TokenStream) (hwf : StreamWF s) :
    (∀ op : StreamOp,
      (op = StreamOp.consumeOp → s.position < s.tokens.length) →
      StreamWF (applyOp op s)) ∧
    (s.position = s.tokens.length →
      (applyOp StreamOp.consumeOp s).position = s.tokens.length + 1) := by
  obtain ⟨hpos, hstack⟩ := hwf
  constructor
  · intro op hop
    cases op with
    | peekOp => exact ⟨hpos, hstack⟩
    | consumeOp =>
        exact ⟨Nat.succ_le_of_lt (hop rfl), hstack⟩
    | consumeIfOp types =>
        simp only [applyOp, TokenStream.consumeIf]
        cases hpk : s.peek with
        | none => exact ⟨hpos, hstack⟩
        | some token =>
            have hlt : s.position < s.tokens.length := by
              by_contra hge
              rw [TokenStream.peek,
                List.getElem?_eq_none (Nat.le_of_not_lt hge)] at hpk
              exact Option.noConfusion hpk
            by_cases hct : types.contains token.type
            · simp only [hct, if_true, TokenStream.consume]
              exact ⟨Nat.succ_le_of_lt hlt, hstack⟩
            · simp only [hct, Bool.false_eq_true, if_false]
              exact ⟨hpos, hstack⟩
    | storeOp =>
        refine ⟨hpos, ?_⟩
        intro p hp
        simp only [applyOp, TokenStream.storePosition, List.mem_cons] at hp
        rcases hp with rfl | hp
        · exact hpos
        · exact hstack p hp
    | clearOp =>
        exact ⟨hpos, fun p hp => hstack p (List.mem_of_mem_tail hp)⟩
    | restoreOp =>
        simp only [applyOp, TokenStream.restorePosition]
        cases hps : s.positionStack with
        | nil => exact ⟨hpos, hstack⟩
        | cons q rest =>
            refine ⟨hstack q (by rw [hps]; exact List.mem_cons_self q rest), ?_⟩
            intro p hp
            exact hstack p (by rw [hps]; exact List.mem_cons_of_mem q hp)
  · intro hend
    simp only [applyOp, TokenStream.consume, hend]

/-- Witness for C4: `c4_cursor_bounds` at concrete streams — `consume`
below end of input preserves the bounds, and at end of input it moves
the cursor to `len + 1`. -/
theorem c4_witness :
    StreamWF (applyOp StreamOp.consumeOp zStream) ∧
    (applyOp StreamOp.consumeOp { zStream with position := 1 }).position =
      zStream.tokens.length + 1 := by
  constructor
  · exact (c4_cursor_bounds zStream
      (by constructor <;> simp [zStream, TokenStream.make])).1
      StreamOp.consumeOp (fun _ => by decide)
  · exact (c4_cursor_bounds { zStream with position := 1 }
      (by constructor <;> simp [zStream, TokenStream.make])).2 (by decide)

/-- One application of `optional(anyOf('x'), false)` on any stream whose
tokens are exactly `[zToken]`: the inner `anyOf` consumes and fails (no
backtracking wrapper), so the optional succeeds with `null` while the
cursor has moved forward by one — at every cursor value. -/
theorem c7Parser_step (s : TokenStream) (h : s.tokens = [zToken]) :
    optional (anyOf ["x"]) false s =
      (.success none, { s with position := s.position + 1 }) := by
  obtain ⟨tokens, pos, stack⟩ := s
  simp only at h
  subst h
  cases pos with
  | zero => rfl
  | succ n => rfl

/-- The `many` loop over `optional(anyOf('x'), false)` never exits on a
`[zToken]` stream: every iteration is a success that advances the
cursor, so the progress check never fires and no failure ever occurs. -/
theorem c7_many_runs_forever :
    ∀ (fuel : Nat) (results : List (Option Token)) (s : TokenStream),
      s.tokens = [zToken] →
      manyGo (optional (anyOf ["x"]) false) fuel results s = none := by
  intro fuel
  induction fuel with
  | zero => intro results s h; rfl
  | succ n ih =>
      intro results s h
      have hstep := c7Parser_step s.storePosition
        (by simpa [TokenStream.storePosition] using h)
      simp only [manyGo]
      rw [hstep]
      simp only [TokenStream.storePosition]
      rw [if_neg (show ¬ (s.position + 1 = s.position) by omega)]
      exact ih _ _ (by simpa [TokenStream.clearPosition] using h)

/-- Claim C7 counterexample: every application of
`optional(anyOf('x'), false)` terminates, yet
`many(optional(anyOf('x'), false))` on the one-token stream `zStream`
has no terminating run — no amount of loop iterations produces a
result, refuting "the loop inside many(p) terminates whenever each
application of p terminates". -/
theorem c7_counterexample :
    ¬ ∃ out, ManyResult (optional (anyOf ["x"]) false) zStream out := by
  rintro ⟨out, fuel, h⟩
  rw [c7_many_runs_forever fuel [] zStream rfl] at h
  exact Option.noConfusion h

/-- Claim C7 (amended): when an application of `p` succeeds without
advancing the cursor, `many` restores the saved position and stops the
loop without treating the stop as a failure; but the progress check
alone does not make the loop terminate for every terminating `p` — a
parser that always succeeds while advancing loops forever. -/
theorem c7_many_zero_width_stop {T : Type} (p : ParseFn T) (s : TokenStream)
    (results : List T) (fuel : Nat) (v : T) (s2 : TokenStream)
    (h : p s.storePosition = (.success v, s2))
    (hpos : s2.position = s.position) :
    manyGo p (fuel + 1) results s =
      some (.success results, s2.restorePosition) := by
  simp only [manyGo, h, hpos, if_true]

/-- Witness for C7: `c7_many_zero_width_stop` at the concrete zero-width
success `optional(anyOf('x'))` (with backtracking) on `zStream`, with
one result already accumulated. -/
theorem c7_witness :
    manyGo (optional (anyOf ["x"]) true) 1 [some zToken] zStream =
      some (.success [some zToken], zStream) := by
  exact c7_many_zero_width_stop (optional (anyOf ["x"]) true) zStream
    [some zToken] 0 none
    { tokens := [zToken], position := 0, positionStack := [0] } rfl rfl

/-- Claim C9 counterexample: on success, `runParser` returns the
`SuccessfulParserResult` wrapper object, not the bare parsed value —
refuting "returns the success value itself ... not a wrapper containing
it". -/
theorem c9_counterexample :
    (runParser (anyOf ["z"]) zStream).1 =
      RunOutcome.returned (.success zToken) ∧
    (runParser (anyOf ["z"]) zStream).1 ≠ RunOutcome.returnedValue zToken := by
  exact ⟨rfl, by decide⟩

/-- Claim C9 (amended): `runParser` applies the parser once; on a
`Failure` outcome it throws a `ParserError` whose `location` is the
failure's `ErrorPosition` and whose message carries the failure's
message under a `Parser Error [line:column]:` prefix; on a `Success`
outcome it returns the `SuccessfulParserResult` wrapper itself, which
is not the bare parsed value. -/
theorem c9_runParser_contract {T : Type} (parser : ParseFn T)
    (s : TokenStream) :
    (∀ v s1, parser s = (.success v, s1) →
      runParser parser s = (.returned (.success v), s1) ∧
        RunOutcome.returned (ParserResult.success v) ≠
          RunOutcome.returnedValue v) ∧
    (∀ m p s1, parser s = (.failure m p, s1) →
      runParser parser s = (.raised (ParserError.make m p), s1) ∧
        (ParserError.make m p).location = p ∧
        (ParserError.make m p).message =
          "Parser Error [" ++ toString p.line ++ ":" ++ toString p.column ++
            "]: " ++ m) := by
  constructor
  · intro v s1 h
    refine ⟨?_, ?_⟩
    · simp only [runParser, h]
    · intro hq
      exact RunOutcome.noConfusion hq
  · intro m p s1 h
    exact ⟨by simp only [runParser, h], rfl, rfl⟩

/-! ## Characterization of `or` (claim C6) -/

/-- Thread the stream through `attempt`-wrapped alternatives exactly as
the `or` loop does, recording each failure and the final stream; `some`
exactly when every alternative fails. -/
def allFailures {T : Type} :
    List (ParseFn T) → TokenStream →
      Option (List (String × ParserErrorPosition) × TokenStream)
  | [], s => some ([], s)
  | parser :: rest, s =>
      match attempt parser s with
      | (.failure m p, s1) =>
          match allFailures rest s1 with
          | some (fs, sF) => some ((m, p) :: fs, sF)
          | none => none
      | _ => none

/-- The pure content of the loop's `deepestError` /
`deepestErrorPosition` bookkeeping: fold the failure list with the
strict `position.position > deepestErrorPosition` update. -/
def selectDeepest :
    Option (String × ParserErrorPosition) → Int →
      List (String × ParserErrorPosition) →
      Option (String × ParserErrorPosition)
  | acc, _, [] => acc
  | acc, best, (m, p) :: fs =>
      if (p.position : Int) > best then
        selectDeepest (some (m, p)) (p.position : Int) fs
      else
        selectDeepest acc best fs

/-- `(m, p)` occurs in `fs`, carries the largest error position of the
list, and every strictly earlier entry is strictly shallower — i.e. it
is the earliest-listed deepest failure. -/
def IsEarliestDeepest (fs : List (String × ParserErrorPosition))
    (m : String) (p : ParserErrorPosition) : Prop :=
  ∃ i, ∃ hi : i < fs.length, fs.get ⟨i, hi⟩ = (m, p) ∧
    (∀ j, ∀ hj : j < fs.length, (fs.get ⟨j, hj⟩).2.position ≤ p.position) ∧
    (∀ j, ∀ hj : j < fs.length, j < i →
      (fs.get ⟨j, hj⟩).2.position < p.position)

/-- When the alternatives before `p` all fail, the `or` loop reaches `p`
with the threaded stream, and a success of `attempt p` is returned
directly, whatever the accumulator holds. -/
theorem orGo_prefix_success {T : Type} (ps1 : List (ParseFn T))
    (p : ParseFn T) (ps2 : List (ParseFn T)) (s : TokenStream)
    (fs : List (String × ParserErrorPosition)) (s1 : TokenStream)
    (v : T) (s2 : TokenStream)
    (hpre : allFailures ps1 s = some (fs, s1))
    (hsucc : attempt p s1 = (.success v, s2))
    (acc : Option (String × ParserErrorPosition)) (best : Int) :
    orGo (ps1 ++ p :: ps2) acc best s = (.success v, s2) := by
  induction ps1 generalizing s fs acc best with
  | nil =>
      simp only [allFailures, Option.some.injEq, Prod.mk.injEq] at hpre
      obtain ⟨rfl, rfl⟩ := hpre
      simp only [List.nil_append, orGo, hsucc]
  | cons q qs ih =>
      rcases hat : attempt q s with ⟨r, sq⟩
      rw [allFailures, hat] at hpre
      cases r with
      | success w => exact Option.noConfusion hpre
      | thrown msg => exact Option.noConfusion hpre
      | jsNull => exact Option.noConfusion hpre
      | failure m pos =>
          have hpre2 : (match allFailures qs sq with
              | some (fs2, sF) => some ((m, pos) :: fs2, sF)
              | none => none) = some (fs, s1) := hpre
          cases hrec : allFailures qs sq with
          | none => rw [hrec] at hpre2; exact Option.noConfusion hpre2
          | some pair =>
              obtain ⟨fs2, s12⟩ := pair
              rw [hrec] at hpre2
              simp only [Option.some.injEq, Prod.mk.injEq] at hpre2
              obtain ⟨rfl, rfl⟩ := hpre2
              simp only [List.cons_append, orGo, hat]
              split
              · exact ih sq fs2 hrec (some (m, pos)) (pos.position : Int)
              · exact ih sq fs2 hrec acc best

/-- When every alternative fails, the `or` loop is the pure
`selectDeepest` fold over the failure list, with the threaded final
stream. -/
theorem orGo_all_failures {T : Type} (parsers : List (ParseFn T))
    (s : TokenStream) (fs : List (String × ParserErrorPosition))
    (sF : TokenStream) (h : allFailures parsers s = some (fs, sF))
    (acc : Option (String × ParserErrorPosition)) (best : Int) :
    orGo parsers acc best s =
      (match selectDeepest acc best fs with
       | some (m, p) => (.failure m p, sF)
       | none => (.jsNull, sF)) := by
  induction parsers generalizing s fs acc best with
  | nil =>
      simp only [allFailures, Option.some.injEq, Prod.mk.injEq] at h
      obtain ⟨rfl, rfl⟩ := h
      cases acc with
      | none => rfl
      | some mp => obtain ⟨m, p⟩ := mp; rfl
  | cons q qs ih =>
      rcases hat : attempt q s with ⟨r, sq⟩
      rw [allFailures, hat] at h
      cases r with
      | success w => exact Option.noConfusion h
      | thrown msg => exact Option.noConfusion h
      | jsNull => exact Option.noConfusion h
      | failure m pos =>
          have h2 : (match allFailures qs sq with
              | some (fs2, sF) => some ((m, pos) :: fs2, sF)
              | none => none) = some (fs, sF) := h
          cases hrec : allFailures qs sq with
          | none => rw [hrec] at h2; exact Option.noConfusion h2
          | some pair =>
              obtain ⟨fs2, s12⟩ := pair
              rw [hrec] at h2
              simp only [Option.some.injEq, Prod.mk.injEq] at h2
              obtain ⟨rfl, rfl⟩ := h2
              simp only [orGo, hat, selectDeepest]
              split
              · exact ih sq fs2 hrec (some (m, pos)) (pos.position : Int)
              · exact ih sq fs2 hrec acc best

/-- Resuming the fold with accumulator `a` (and `best = a`'s position)
yields an entry that dominates the rest of the list; when it beats `a`
it comes from the list with all earlier list entries strictly
shallower. -/
theorem selectDeepest_resume (fs : List (String × ParserErrorPosition))
    (a : String × ParserErrorPosition) :
    ∃ c, selectDeepest (some a) (a.2.position : Int) fs = some c ∧
      a.2.position ≤ c.2.position ∧
      (∀ f ∈ fs, f.2.position ≤ c.2.position) ∧
      (c = a ∨ ∃ i, ∃ hi : i < fs.length, fs.get ⟨i, hi⟩ = c ∧
        a.2.position < c.2.position ∧
        ∀ j, ∀ hj : j < fs.length, j < i →
          (fs.get ⟨j, hj⟩).2.position < c.2.position) := by
  induction fs generalizing a with
  | nil =>
      exact ⟨a, rfl, le_refl _, by simp, Or.inl rfl⟩
  | cons f fs ih =>
      obtain ⟨m, p⟩ := f
      by_cases hcmp : a.2.position < p.position
      · have hif : ((p.position : Int) > (a.2.position : Int)) := by
          exact_mod_cast hcmp
        obtain ⟨c, hsel, hle, hall, hdis⟩ := ih (m, p)
        refine ⟨c, ?_, ?_, ?_, Or.inr ?_⟩
        · simp only [selectDeepest, if_pos hif]
          exact hsel
        · exact le_trans (Nat.le_of_lt hcmp) hle
        · intro g hg
          rcases List.mem_cons.mp hg with rfl | hg2
          · exact hle
          · exact hall g hg2
        · rcases hdis with rfl | ⟨i, hi, hget, hlt, hstrict⟩
          · refine ⟨0, by simp, rfl, hcmp, ?_⟩
            intro j hj hj0
            omega
          · refine ⟨i + 1, Nat.succ_lt_succ hi, by simpa using hget,
              lt_trans hcmp hlt, ?_⟩
            intro j hj hjlt
            cases j with
            | zero => simpa using hlt
            | succ j2 =>
                have hj2 : j2 < fs.length := by
                  simpa using Nat.lt_of_succ_lt_succ hj
                simpa using hstrict j2 hj2 (Nat.lt_of_succ_lt_succ hjlt)
      · have hif : ¬ ((p.position : Int) > (a.2.position : Int)) := by
          intro hq
          exact hcmp (by exact_mod_cast hq)
        obtain ⟨c, hsel, hac, hall, hdis⟩ := ih a
        refine ⟨c, ?_, hac, ?_, ?_⟩
        · simp only [selectDeepest, if_neg hif]
          exact hsel
        · intro g hg
          rcases List.mem_cons.mp hg with rfl | hg2
          · exact le_trans (Nat.le_of_not_lt hcmp) hac
          · exact hall g hg2
        · rcases hdis with rfl | ⟨i, hi, hget, hlt, hstrict⟩
          · exact Or.inl rfl
          · refine Or.inr ⟨i + 1, Nat.succ_lt_succ hi, by simpa using hget,
              hlt, ?_⟩
            intro j hj hjlt
            cases j with
            | zero =>
                simpa using lt_of_le_of_lt (Nat.le_of_not_lt hcmp) hlt
            | succ j2 =>
                have hj2 : j2 < fs.length := by
                  simpa using Nat.lt_of_succ_lt_succ hj
                simpa using hstrict j2 hj2 (Nat.lt_of_succ_lt_succ hjlt)

/-- From the initial accumulator (`null`, `-1`) the fold returns the
earliest-listed deepest failure of a non-empty failure list. -/
theorem selectDeepest_earliest (fs : List (String × ParserErrorPosition))
    (hne : fs ≠ []) :
    ∃ m p, selectDeepest none (-1) fs = some (m, p) ∧
      IsEarliestDeepest fs m p := by
  cases fs with
  | nil => exact absurd rfl hne
  | cons f fs =>
      obtain ⟨m0, p0⟩ := f
      have hif : ((p0.position : Int) > (-1 : Int)) := by
        have : (0 : Int) ≤ (p0.position : Int) := Int.ofNat_nonneg _
        omega
      obtain ⟨c, hsel, hle, hall, hdis⟩ := selectDeepest_resume fs (m0, p0)
      obtain ⟨mc, pc⟩ := c
      refine ⟨mc, pc, ?_, ?_⟩
      · simp only [selectDeepest, if_pos hif]
        exact hsel
      · rcases hdis with heq | ⟨i, hi, hget, hlt, hstrict⟩
        · obtain ⟨rfl, rfl⟩ : mc = m0 ∧ pc = p0 := by
            simpa [Prod.mk.injEq] using heq
          refine ⟨0, by simp, by simp, ?_, ?_⟩
          · intro j hj
            cases j with
            | zero => simp
            | succ j2 =>
                have hj2 : j2 < fs.length := by
                  simpa using Nat.lt_of_succ_lt_succ hj
                simpa using hall (fs.get ⟨j2, hj2⟩) (fs.get_mem _ _)
          · intro j hj hj0
            omega
        · refine ⟨i + 1, Nat.succ_lt_succ hi, by simpa using hget, ?_, ?_⟩
          · intro j hj
            cases j with
            | zero => simpa using hle
            | succ j2 =>
                have hj2 : j2 < fs.length := by
                  simpa using Nat.lt_of_succ_lt_succ hj
                simpa using hall (fs.get ⟨j2, hj2⟩) (fs.get_mem _ _)
          · intro j hj hjlt
            cases j with
            | zero => simpa using hlt
            | succ j2 =>
                have hj2 : j2 < fs.length := by
                  simpa using Nat.lt_of_succ_lt_succ hj
                simpa using hstrict j2 hj2 (Nat.lt_of_succ_lt_succ hjlt)

/-- Claim C6: `or` returns the success of the first alternative that
succeeds — each alternative running `attempt`-wrapped on the threaded
stream, so in particular when two alternatives would both succeed the
earlier one's result is returned (left bias); and when every
alternative fails, `or` returns a failure from the list whose
`ErrorPosition.position` is largest, with every earlier-listed failure
strictly shallower — so among equally-deep failures the earliest-listed
one wins (ties do not overwrite). -/
theorem c6_or_bias_and_deepest {T : Type} :
    (∀ (ps1 : List (ParseFn T)) (p : ParseFn T) (ps2 : List (ParseFn T))
        (s : TokenStream) (fs : List (String × ParserErrorPosition))
        (s1 : TokenStream) (v : T) (s2 : TokenStream),
      allFailures ps1 s = some (fs, s1) →
      attempt p s1 = (.success v, s2) →
      orP (ps1 ++ p :: ps2) s = (.success v, s2)) ∧
    (∀ (parsers : List (ParseFn T)) (s : TokenStream)
        (fs : List (String × ParserErrorPosition)) (sF : TokenStream),
      allFailures parsers s = some (fs, sF) → fs ≠ [] →
      ∃ m pos, orP parsers s = (.failure m pos, sF) ∧
        IsEarliestDeepest fs m pos) := by
  constructor
  · intro ps1 p ps2 s fs s1 v s2 hpre hsucc
    exact orGo_prefix_success ps1 p ps2 s fs s1 v s2 hpre hsucc none (-1)
  · intro parsers s fs sF hall hne
    obtain ⟨m, pos, hsel, hdeep⟩ := selectDeepest_earliest fs hne
    refine ⟨m, pos, ?_, hdeep⟩
    simp only [orP]
    rw [orGo_all_failures parsers s fs sF hall none (-1), hsel]

/-- Witness for C6: the left-bias branch on a succeeding alternative and
the all-fail branch on two equally-deep failures (the earliest wins),
both on the concrete stream `zStream`. -/
theorem c6_witness :
    orP [anyOf ["z"]] zStream =
      (.success zToken, { zStream with position := 1 }) ∧
    (∃ m pos,
      orP [anyOf ["x"], anyOf ["y"]] zStream = (.failure m pos, zStream) ∧
      IsEarliestDeepest
        [("Expected token of type x, but got z",
          { line := 1, column := 1, position := 1 }),
         ("Expected token of type y, but got z",
          { line := 1, column := 1, position := 1 })] m pos) := by
  constructor
  · exact c6_or_bias_and_deepest.1 [] (anyOf ["z"]) [] zStream [] zStream
      zToken { tokens := [zToken], position := 1, positionStack := [] } rfl rfl
  · exact c6_or_bias_and_deepest.2 [anyOf ["x"], anyOf ["y"]] zStream _
      zStream rfl (by simp)

/-- Witness for C9: both branches of `c9_runParser_contract` on concrete
one-token streams. -/
theorem c9_witness :
    runParser (anyOf ["z"]) zStream =
      (.returned (.success zToken), { zStream with position := 1 }) ∧
    runParser (anyOf ["a"]) zStream =
      (.raised (ParserError.make "Expected token of type a, but got z"
        { line := 1, column := 1, position := 1 }),
       { zStream with position := 1 }) := by
  constructor
  · exact ((c9_runParser_contract (anyOf ["z"]) zStream).1 zToken _ rfl).1
  · exact ((c9_runParser_contract (anyOf ["a"]) zStream).2 _ _ _ rfl).1

end LittleParser
